import Mathlib

/-!
# DeepShell resilient completion pipeline — verification development

Shallow embedding of the core of the `deepshell` backend:
the file-based LRU response cache (`deepshell/cache.py`), the bounded
retry-with-backoff executor and completion client (`deepshell/llm.py`),
the option validator (`deepshell/handlers/base_handler.py`), and the
caching decorator (`cache_response` in `deepshell/cache.py`).

Conventions of the embedding:
* Python dicts that are used as ordered association maps (`Cache.metadata`,
  keyword-argument dictionaries) are modelled as association lists in
  insertion order; updating an existing key rewrites it in place, a new key
  is appended — exactly the ordering behaviour of CPython dicts.
* Wall-clock instants (`time.time()`) are supplied explicitly as `Nat`
  parameters; sleep durations are exact rationals (`ℚ`).
* Filesystem writes are modelled as always succeeding; the warning-and-skip
  branches taken on `IOError` are outside the state space of the model.
* A Python exception raised by the wrapped operation is modelled as an
  explicit `ApiOutcome.raised` value; total Lean functions returning a
  result value model the source's guarantee of not propagating exceptions.
-/

namespace DeepShell

/-! ## Association-list primitives (CPython dict behaviour) -/

/-- `d[k] = v` on an insertion-ordered dict: rewrite in place if the key is
present, append otherwise. -/
def alSet {α : Type} (k : String) (v : α) : List (String × α) → List (String × α)
  | [] => [(k, v)]
  | (k', v') :: rest => if k' = k then (k, v) :: rest else (k', v') :: alSet k v rest

/-- `d.get(k)` on an association list. -/
def alGet {α : Type} (k : String) : List (String × α) → Option α
  | [] => none
  | (k', v') :: rest => if k' = k then some v' else alGet k rest

/-! ## CacheStore (`deepshell/cache.py`, class `Cache`)

`files` models the `<key>.cache` payload files in the cache directory,
`metadata` models the access-time index `self.metadata`
(kept in `.cache_metadata.json`). -/

structure CacheState where
  files : List (String × String)
  metadata : List (String × Nat)
deriving Repr, DecidableEq

/-- The empty cache directory. -/
def CacheState.empty : CacheState := ⟨[], []⟩

/-- Stable insertion into a time-ascending list: the new pair is placed
before the first pair of strictly later — or equal — time it meets from the
right, which together with `sortByTime`'s fold order reproduces the stable
ascending order of Python's `sorted(metadata.items(), key=lambda x: x[1])`. -/
def insByTime (p : String × Nat) : List (String × Nat) → List (String × Nat)
  | [] => [p]
  | q :: rest => if p.2 ≤ q.2 then p :: q :: rest else q :: insByTime p rest

/-- `sorted(self.metadata.items(), key=lambda x: x[1])`. -/
def sortByTime (l : List (String × Nat)) : List (String × Nat) :=
  l.foldr insByTime []

/-- `Cache._cleanup_old_entries` (cache.py lines 82–100): when the metadata
index holds more than `maxSize` entries, delete the oldest-accessed
entries — payload file and metadata row both — until exactly `maxSize`
remain. -/
def cleanupOldEntries (maxSize : Nat) (st : CacheState) : CacheState :=
  if st.metadata.length ≤ maxSize then st
  else
    let sortedItems := sortByTime st.metadata
    let itemsToRemove := sortedItems.length - maxSize
    let removeKeys := (sortedItems.take itemsToRemove).map Prod.fst
    { files := st.files.filter (fun p => !(removeKeys.contains p.1)),
      metadata := st.metadata.filter (fun p => !(removeKeys.contains p.1)) }

/-- `Cache.get` (cache.py lines 102–121): a missing payload file is a miss;
a hit returns the payload and refreshes the entry's access time to `now`. -/
def cacheGet (key : String) (now : Nat) (st : CacheState) :
    Option String × CacheState :=
  match alGet key st.files with
  | none => (none, st)
  | some content => (some content, { st with metadata := alSet key now st.metadata })

/-- `Cache.set` (cache.py lines 123–137): write the payload file, stamp the
access time, then run the eviction pass. -/
def cacheSet (maxSize : Nat) (key value : String) (now : Nat)
    (st : CacheState) : CacheState :=
  cleanupOldEntries maxSize
    { files := alSet key value st.files, metadata := alSet key now st.metadata }

/-- `Cache.size` / the `"entries"` field of `Cache.stats` (cache.py lines
152–167): the number of metadata rows. -/
def statsEntries (st : CacheState) : Nat := st.metadata.length

/-- A sequence of `set` calls, each triple being (key, value, access time). -/
def runSets (maxSize : Nat) (es : List (String × String × Nat))
    (st : CacheState) : CacheState :=
  es.foldl (fun s e => cacheSet maxSize e.1 e.2.1 e.2.2 s) st

/-! ## Retry executor (`deepshell/llm.py`, `BaseLLMClient`) -/

/-- `delta.tool_calls[i].function`: the called function, whose `name` may be
absent or empty (both falsy in Python). -/
structure ToolFunction where
  name : Option String
deriving Repr, DecidableEq

/-- One entry of `delta.tool_calls`. -/
structure ToolCall where
  function : ToolFunction
deriving Repr, DecidableEq

/-- `chunk.choices[0].delta`: a content delta and/or tool-call deltas;
`none` models a missing attribute, and Python falsiness of an empty
string/list is handled at use sites. -/
structure Delta where
  content : Option String
  tool_calls : Option (List ToolCall)
deriving Repr, DecidableEq

/-- One element of `chunk.choices`. -/
structure DeltaChoice where
  delta : Delta
deriving Repr, DecidableEq

/-- One streamed chunk; `choices = none` models a chunk object with no
`choices` attribute. -/
structure StreamChunk where
  choices : Option (List DeltaChoice)
deriving Repr, DecidableEq

/-- The value a provider call returns, as discriminated by
`_retry_with_backoff`'s structural checks: Python `None`, a boolean, a
response object whose `choices` attribute may be missing (`none`) or hold a
(possibly empty) choice list, or — for `stream=True` calls — an iterable
chunk stream that yields `chunks` and then either ends or raises a
transport exception carrying `exc`. A chunk is described by the fields
`_stream_completion` inspects. -/
inductive ApiValue where
  | vNone
  | vBool (b : Bool)
  | vResp (choices : Option (List String))
  | vStream (chunks : List StreamChunk) (exc : Option String)
deriving Repr, DecidableEq

/-- One attempt of the wrapped operation either raises an exception with
message `msg` or returns a value. -/
inductive ApiOutcome where
  | raised (msg : String)
  | returned (v : ApiValue)

/-- The structural validation applied to a returned value inside
`_retry_with_backoff` (llm.py lines 74–84): `None` and booleans are always
rejected; for non-streaming calls a missing or empty `choices` list is
rejected as well. The error strings are the `ValueError` messages raised by
the source. -/
def checkResult (stream : Bool) : ApiValue → Except String ApiValue
  | .vNone => .error "API returned None response"
  | .vBool b => .error ("API returned boolean: " ++ (if b then "True" else "False"))
  | v => if stream then .ok v else
      match v with
      | .vResp none => .error "API response missing \x27choices\x27 attribute"
      | .vResp (some []) => .error "API response has empty choices"
      | v' => .ok v'

/-- Classify one attempt: a raised exception or a structurally invalid
return value both count as a failure with the exception's message. -/
def classifyAttempt (stream : Bool) : ApiOutcome → Except String ApiValue
  | .raised msg => .error msg
  | .returned v => checkResult stream v

/-- The overall result of `_retry_with_backoff`: either a structurally
valid provider value, or the `MockResponse` error sentinel built by
`_create_error_response`, carrying its single choice's message content. -/
inductive RetryResult where
  | ok (v : ApiValue)
  | mockError (content : String)
deriving Repr, DecidableEq

/-- `BaseLLMClient._create_error_response` (llm.py lines 67–68). -/
def createErrorResponse (msg : String) : RetryResult :=
  .mockError ("❌ Error: " ++ msg)

/-- Observable trace of one `_retry_with_backoff` run: the returned value,
how many times the wrapped operation was invoked, and the sequence of
durations passed to `time.sleep` between attempts. -/
structure RetryTrace where
  result : RetryResult
  calls : Nat
  sleeps : List ℚ
deriving Repr, DecidableEq

/-- The retry loop of `_retry_with_backoff` (llm.py lines 70–94) from
attempt number `attempt` with `remaining` further attempts allowed: a
failing attempt with none remaining breaks out and returns the error
sentinel for the last exception; otherwise the loop sleeps
`retry_delay * 2 ** attempt` and retries. `op n` is the outcome of the
`n`-th invocation of the wrapped callable. -/
def retryFrom (stream : Bool) (retryDelay : ℚ) (op : Nat → ApiOutcome) :
    Nat → Nat → RetryTrace
  | attempt, remaining =>
    match classifyAttempt stream (op attempt) with
    | .ok v => ⟨.ok v, 1, []⟩
    | .error msg =>
      match remaining with
      | 0 => ⟨createErrorResponse msg, 1, []⟩
      | r + 1 =>
        let rest := retryFrom stream retryDelay op (attempt + 1) r
        ⟨rest.result, rest.calls + 1, (retryDelay * 2 ^ attempt) :: rest.sleeps⟩

/-- `BaseLLMClient._retry_with_backoff`: at most `maxRetries + 1` attempts
starting from attempt `0`. -/
def retryWithBackoff (maxRetries : Nat) (stream : Bool) (retryDelay : ℚ)
    (op : Nat → ApiOutcome) : RetryTrace :=
  retryFrom stream retryDelay op 0 maxRetries

/-! ## Streaming normalization (`BaseLLMClient._stream_completion`,
llm.py lines 134–151) -/

/-- Python truthiness of an optional string attribute:
`hasattr(delta, 'content') and delta.content`. -/
def truthyStr : Option String → Bool
  | none => false
  | some s => !(s == "")

/-- Python truthiness of an optional list attribute. -/
def truthyList {α : Type} : Option (List α) → Bool
  | none => false
  | some l => !l.isEmpty

/-- The fragments one incoming chunk contributes (the body of the `for`
loop, llm.py lines 140–148): a chunk with no/empty `choices` contributes
nothing; a truthy content delta yields the content; otherwise truthy
tool-call deltas yield one marker per named tool call. -/
def chunkFragments (chunk : StreamChunk) : List String :=
  match chunk.choices with
  | some (choice :: _) =>
    let delta := choice.delta
    if truthyStr delta.content then [delta.content.getD ""]
    else if truthyList delta.tool_calls then
      (delta.tool_calls.getD []).foldr
        (fun tc acc =>
          if truthyStr tc.function.name then
            ("\n🔧 Calling function: " ++ tc.function.name.getD "" ++ "\n") :: acc
          else acc) []
    else []
  | _ => []

/-- The modelled `str(stream)` fallback of
`getattr(stream, 'content', str(stream))`: `MockResponse` has no `content`
attribute, so its `repr` string is interpolated (the address is elided in
the model). -/
def mockResponseRepr : String := "<deepshell.llm.MockResponse object>"

/-- Iterating the underlying chunk stream inside the `try` block: every
yielded chunk is processed, and if the transport raises afterwards the
`except` clause yields exactly one final error fragment, after which the
generator returns. -/
def streamFragments (chunks : List StreamChunk) (exc : Option String) :
    List String :=
  (chunks.map chunkFragments).flatten ++
    (match exc with
     | some msg => ["❌ Streaming Error: " ++ msg]
     | none => [])

/-- `_stream_completion` given the handshake result produced by
`_retry_with_backoff`: a non-iterable handshake value (the `MockResponse`
sentinel, or a non-stream value) yields one error fragment and returns;
an iterable stream is consumed chunk by chunk under the `try`. -/
def streamCompletion (handshake : RetryResult) : List String :=
  match handshake with
  | .mockError _ => ["❌ Streaming Error: " ++ mockResponseRepr]
  | .ok v =>
    match v with
    | .vStream chunks exc => streamFragments chunks exc
    | .vNone => ["❌ Streaming Error: None"]
    | .vBool b => ["❌ Streaming Error: " ++ (if b then "True" else "False")]
    | .vResp _ => ["❌ Streaming Error: <response object>"]

/-! ## Completion client (`BaseLLMClient.complete`, llm.py lines 96–132) -/

/-- A `{role, content}` message. -/
structure Message where
  role : String
  content : String
deriving Repr, DecidableEq

/-- The keyword arguments `complete` assembles for the provider call
(llm.py lines 111–125): always model, messages, temperature, top_p,
stream and timeout; `max_tokens` only when supplied; `tools` and
`tool_choice = "auto"` only when a truthy `functions` list is supplied. -/
structure CompletionKwargs where
  model : String
  messages : List Message
  temperature : ℚ
  top_p : ℚ
  stream : Bool
  timeout : Nat
  max_tokens : Option Int
  tools : Option (List String)
deriving Repr, DecidableEq

/-- Assembling `completion_kwargs`: `model or self.get_default_model()`,
and a truthy (non-empty) `functions` list becomes `tools`. The filtered
merge of extra `**kwargs` (llm.py lines 126–128) adds no key the model
tracks and is omitted. -/
def buildCompletionKwargs (defaultModel : String) (timeout : Nat)
    (messages : List Message) (model : Option String)
    (temperature topP : ℚ) (maxTokens : Option Int) (stream : Bool)
    (functions : Option (List String)) : CompletionKwargs :=
  { model := model.getD defaultModel
    messages := messages
    temperature := temperature
    top_p := topP
    stream := stream
    timeout := timeout
    max_tokens := maxTokens
    tools := match functions with
      | some (f :: fs) => some (f :: fs)
      | _ => none }

/-- `BaseLLMClient.complete` specialised to `stream = False`: the kwargs
are assembled and the provider callable is invoked through
`_retry_with_backoff` — the body contains no inspection of `messages`
whatsoever, in particular no emptiness check and no `ValidationError`.
`op kw n` is the outcome of the `n`-th provider invocation for the
assembled kwargs `kw`. -/
def clientComplete (defaultModel : String) (timeout maxRetries : Nat)
    (retryDelay : ℚ) (messages : List Message) (model : Option String)
    (temperature topP : ℚ) (maxTokens : Option Int)
    (functions : Option (List String))
    (op : CompletionKwargs → Nat → ApiOutcome) : RetryTrace :=
  let kw := buildCompletionKwargs defaultModel timeout messages model
    temperature topP maxTokens false functions
  retryWithBackoff maxRetries false retryDelay (op kw)

/-! ## Python values and `json.dumps` (for `Cache._generate_key`,
cache.py lines 68–76) -/

/-- The Python values that can appear among the cached call's arguments:
scalars, strings, lists/tuples (both serialize to JSON arrays), dicts, and
class instances (which have a `__dict__` and are not JSON-serializable —
`default=str` turns them into their `repr` string). -/
inductive PyVal where
  | pNone
  | pBool (b : Bool)
  | pInt (n : Int)
  | pStr (s : String)
  | pList (xs : List PyVal)
  | pDict (xs : List (String × PyVal))
  | pObj (cls : String) (addr : Nat)

/-- Python truthiness of a value. -/
def truthyVal : PyVal → Bool
  | .pNone => false
  | .pBool b => b
  | .pInt n => !(n == 0)
  | .pStr s => !(s == "")
  | .pList xs => !xs.isEmpty
  | .pDict xs => !xs.isEmpty
  | .pObj _ _ => true

/-- `d.get(k)` truthiness with a falsy default. -/
def truthyOpt : Option PyVal → Bool
  | none => false
  | some v => truthyVal v

/-- Stable insertion by key into a key-ascending pair list. -/
def insByKey {α : Type} (p : String × α) :
    List (String × α) → List (String × α)
  | [] => [p]
  | q :: rest => if p.1 ≤ q.1 then p :: q :: rest else q :: insByKey p rest

/-- `sorted(kwargs.items())` for distinct keys (Python compares the
`(key, value)` tuples, which for distinct string keys orders by key), and
likewise the key ordering applied by `json.dumps(..., sort_keys=True)`. -/
def sortPairsByKey {α : Type} (l : List (String × α)) : List (String × α) :=
  l.foldr insByKey []

/-- JSON string escaping (backslash, quote and the common control
characters; `ensure_ascii` escaping of non-ASCII codepoints is elided as no
modelled statement depends on it). -/
def jsonEscape (s : String) : String :=
  String.join (s.toList.map (fun c =>
    if c = '\\' then "\\\\"
    else if c = '"' then "\\\""
    else if c = '\n' then "\\n"
    else if c = '\t' then "\\t"
    else if c = '\r' then "\\r"
    else String.mk [c]))

/-- A quoted JSON string literal. -/
def jsonQuote (s : String) : String := "\"" ++ jsonEscape s ++ "\""

/-- `str(obj)` for a plain class instance. -/
def pyObjRepr (cls : String) (addr : Nat) : String :=
  "<" ++ cls ++ " object at 0x" ++ String.mk (Nat.toDigits 16 addr) ++ ">"

/-- Stable insertion for `sortBy`. -/
def insBy {β : Type} (key : β → String) (p : β) : List β → List β
  | [] => [p]
  | q :: rest => if key p ≤ key q then p :: q :: rest else q :: insBy key p rest

/-- Stable ascending sort by a string-valued key. -/
def sortBy {β : Type} (key : β → String) (l : List β) : List β :=
  l.foldr (insBy key) []

/-- `json.dumps(v, sort_keys=True, default=str)` with the default
separators `", "` and `": "`: dict keys are emitted sorted, tuples and
lists become arrays, and a non-serializable instance is rendered through
`default=str` as a quoted `repr` string. -/
def pyDumps : PyVal → String
  | .pNone => "null"
  | .pBool b => if b then "true" else "false"
  | .pInt n => toString n
  | .pStr s => jsonQuote s
  | .pList xs => "[" ++
      String.intercalate ", " (xs.attach.map (fun q => pyDumps q.1)) ++ "]"
  | .pDict xs => "\x7b" ++
      String.intercalate ", "
        ((sortBy (fun q => q.1.1) xs.attach).map
          (fun q => jsonQuote q.1.1 ++ ": " ++ pyDumps q.1.2)) ++ "\x7d"
  | .pObj cls addr => jsonQuote (pyObjRepr cls addr)
decreasing_by
  · have h1 := List.sizeOf_lt_of_mem q.2
    simp only [PyVal.pList.sizeOf_spec]
    omega
  · have h1 := List.sizeOf_lt_of_mem q.2
    have h2 : sizeOf q.1.2 < sizeOf q.1 := by
      cases q.1 with
      | mk a b => simp
    simp only [PyVal.pDict.sizeOf_spec]
    omega

/-- The canonical `key_string` of `Cache._generate_key`:
`json.dumps({'args': args, 'kwargs': sorted(kwargs.items())}, sort_keys=True,
default=str)`. Each sorted kwargs item is a `(name, value)` tuple and
serializes as a two-element array. -/
def generateKeyString (args : List PyVal) (kwargs : List (String × PyVal)) :
    String :=
  pyDumps (.pDict
    [("args", .pList args),
     ("kwargs", .pList ((sortPairsByKey kwargs).map
       (fun p => .pList [.pStr p.1, p.2])))])

/-! ## MD5 (`hashlib.md5(key_string.encode('utf-8')).hexdigest()`) -/

/-- The 64 MD5 sine-derived constants `K[i] = ⌊|sin(i+1)| · 2³²⌋`. -/
def md5K : Array Nat := #[
  3614090360, 3905402710, 606105819, 3250441966, 4118548399, 1200080426,
  2821735955, 4249261313, 1770035416, 2336552879, 4294925233, 2304563134,
  1804603682, 4254626195, 2792965006, 1236535329, 4129170786, 3225465664,
  643717713, 3921069994, 3593408605, 38016083, 3634488961, 3889429448,
  568446438, 3275163606, 4107603335, 1163531501, 2850285829, 4243563512,
  1735328473, 2368359562, 4294588738, 2272392833, 1839030562, 4259657740,
  2763975236, 1272893353, 4139469664, 3200236656, 681279174, 3936430074,
  3572445317, 76029189, 3654602809, 3873151461, 530742520, 3299628645,
  4096336452, 1126891415, 2878612391, 4237533241, 1700485571, 2399980690,
  4293915773, 2240044497, 1873313359, 4264355552, 2734768916, 1309151649,
  4149444226, 3174756917, 718787259, 3951481745]

/-- The per-round left-rotation amounts. -/
def md5S : Array Nat := #[
  7, 12, 17, 22, 7, 12, 17, 22, 7, 12, 17, 22, 7, 12, 17, 22,
  5, 9, 14, 20, 5, 9, 14, 20, 5, 9, 14, 20, 5, 9, 14, 20,
  4, 11, 16, 23, 4, 11, 16, 23, 4, 11, 16, 23, 4, 11, 16, 23,
  6, 10, 15, 21, 6, 10, 15, 21, 6, 10, 15, 21, 6, 10, 15, 21]

/-- 32-bit left rotation on a word represented as a `Nat` below `2³²`. -/
def rotl32 (x n : Nat) : Nat :=
  ((x <<< n) ||| (x >>> (32 - n))) % 4294967296

/-- The `n` low-order bytes of `x`, little-endian. -/
def leBytes (n x : Nat) : List Nat :=
  (List.range n).map (fun i => (x >>> (8 * i)) % 256)

/-- The four MD5 working registers. -/
structure MD5Regs where
  A : Nat
  B : Nat
  C : Nat
  D : Nat

/-- The MD5 initialization vector. -/
def md5Init : MD5Regs := ⟨1732584193, 4023233417, 2562383102, 271733878⟩

/-- One of the 64 MD5 rounds; `M g` is the `g`-th little-endian word of
the current block. -/
def md5Round (M : Nat → Nat) (st : MD5Regs) (i : Nat) : MD5Regs :=
  let mask := 4294967295
  let fg : Nat × Nat :=
    if i < 16 then ((st.B &&& st.C) ||| ((st.B ^^^ mask) &&& st.D), i)
    else if i < 32 then
      ((st.D &&& st.B) ||| ((st.D ^^^ mask) &&& st.C), (5 * i + 1) % 16)
    else if i < 48 then (st.B ^^^ st.C ^^^ st.D, (3 * i + 5) % 16)
    else (st.C ^^^ (st.B ||| (st.D ^^^ mask)), (7 * i) % 16)
  let f := (fg.1 + st.A + md5K.getD i 0 + M fg.2) % 4294967296
  ⟨st.D, (st.B + rotl32 f (md5S.getD i 0)) % 4294967296, st.B, st.C⟩

/-- Process one 64-byte block and add the result into the running state. -/
def md5Block (block : List Nat) (h : MD5Regs) : MD5Regs :=
  let M := fun g =>
    block.getD (4 * g) 0 + block.getD (4 * g + 1) 0 * 256 +
      block.getD (4 * g + 2) 0 * 65536 + block.getD (4 * g + 3) 0 * 16777216
  let r := (List.range 64).foldl (md5Round M) h
  ⟨(h.A + r.A) % 4294967296, (h.B + r.B) % 4294967296,
   (h.C + r.C) % 4294967296, (h.D + r.D) % 4294967296⟩

/-- MD5 padding: append `0x80`, zero-fill to 56 mod 64, then the 64-bit
little-endian bit length. -/
def md5Pad (msg : List Nat) : List Nat :=
  let len := msg.length
  let k := (119 - len % 64) % 64
  msg ++ [128] ++ List.replicate k 0 ++ leBytes 8 ((8 * len) % 18446744073709551616)

/-- Two lowercase hex digits of a byte (`Nat.digitChar` maps `0–15` to
`'0'–'9'`, `'a'–'f'`). -/
def byteToHex (b : Nat) : List Char :=
  [Nat.digitChar (b / 16 % 16), Nat.digitChar (b % 16)]

/-- `hashlib.md5(s.encode('utf-8')).hexdigest()`. -/
def md5Hex (s : String) : String :=
  let msg := (s.toUTF8.toList.map (fun b => b.toNat))
  let padded := md5Pad msg
  let final := (List.range (padded.length / 64)).foldl
    (fun h i => md5Block ((padded.drop (64 * i)).take 64) h) md5Init
  String.mk ((([final.A, final.B, final.C, final.D].map (leBytes 4)).flatten.map
    byteToHex).flatten)

/-- `Cache._generate_key` (cache.py lines 68–76). -/
def generateKey (args : List PyVal) (kwargs : List (String × PyVal)) : String :=
  md5Hex (generateKeyString args kwargs)

/-! ## The caching facade (`cache_response`, cache.py lines 187–236) -/

/-- `hasattr(x, '__dict__')`: true for plain class instances, false for the
built-in scalar and container values. -/
def hasDunderDict : PyVal → Bool
  | .pObj _ _ => true
  | _ => false

/-- `args[1:] if args and hasattr(args[0], '__dict__') else args`
(cache.py line 211): strip the bound `self` receiver before key
generation. -/
def wrapperCacheArgs (args : List PyVal) : List PyVal :=
  match args with
  | a :: rest => if hasDunderDict a then rest else args
  | [] => args

/-- The cache key the wrapper computes (cache.py lines 211–212). -/
def wrapperCacheKey (args : List PyVal) (kwargs : List (String × PyVal)) :
    String :=
  generateKey (wrapperCacheArgs args) kwargs

/-- `json.dumps(result, default=str)` on the value returned by the wrapped
call: both the provider response object and the `MockResponse` error
sentinel are not JSON-serializable, so `default=str` renders each as its
quoted `repr` string and the dump always succeeds — it never raises the
`TypeError`/`ValueError` the wrapper is prepared to swallow. -/
def serializeFuncResult : RetryResult → String
  | .ok _ => pyDumps (.pStr "<litellm response object>")
  | .mockError _ => pyDumps (.pStr mockResponseRepr)

/-- What the wrapper hands back to its caller: the deserialized cached
payload on a hit, or the wrapped call's own result. -/
inductive WrapperValue where
  | cached (v : PyVal)
  | direct (r : RetryResult)

/-- Observable outcome of one `cache_response.wrapper` invocation: the
returned value, the cache state left behind, and whether the wrapped
function was executed. -/
structure WrapperRun where
  value : WrapperValue
  cache : CacheState
  funcCalled : Bool

/-- `cache_response.wrapper` (cache.py lines 195–234). `enableCache` models
`config.get("ENABLE_CACHE") == "true"`; `loads` is the behaviour of
`json.loads` on the stored payload (`none` models `JSONDecodeError`, which
the wrapper treats as a miss); `funcResult` is the value
`func(*args, **kwargs)` returns if the wrapped call is executed; `tGet` and
`tSet` are the wall-clock instants of the cache read and write. -/
def cacheResponseWrapper (enableCache : Bool) (maxSize : Nat)
    (loads : String → Option PyVal) (args : List PyVal)
    (kwargs : List (String × PyVal)) (funcResult : RetryResult)
    (tGet tSet : Nat) (st : CacheState) : WrapperRun :=
  if !enableCache then ⟨.direct funcResult, st, true⟩
  else if truthyOpt (alGet "functions" kwargs) || truthyOpt (alGet "tools" kwargs) then
    ⟨.direct funcResult, st, true⟩
  else if truthyOpt (alGet "stream" kwargs) then ⟨.direct funcResult, st, true⟩
  else
    let key := wrapperCacheKey args kwargs
    match cacheGet key tGet st with
    | (some cached, st1) =>
      match loads cached with
      | some v => ⟨.cached v, st1, false⟩
      | none =>
        ⟨.direct funcResult,
         cacheSet maxSize key (serializeFuncResult funcResult) tSet st1, true⟩
    | (none, st1) =>
      ⟨.direct funcResult,
       cacheSet maxSize key (serializeFuncResult funcResult) tSet st1, true⟩

/-! ## Option validation (`BaseHandler.validate_options`,
base_handler.py lines 266–317) -/

/-- The validated option record the handlers pass on to `get_completion`. -/
structure ValidatedOptions where
  model : String
  temperature : ℚ
  top_p : ℚ
  max_tokens : Option Int
  stream : Bool
  cache : Bool
  functions : Option (List PyVal)

/-- `funcs if funcs is None or isinstance(funcs, list) else None`
(base_handler.py lines 310–315), on the optional `functions` option. -/
def validatedFunctions : Option PyVal → Option (List PyVal)
  | some (.pList xs) => some xs
  | _ => none

/-- `BaseHandler.validate_options`: unknown models fall back to the
configured default; `temperature` is clamped into `[0, 2]` and `top_p`
into `[0, 1]` rather than rejected; a non-positive `max_tokens` is dropped
to `None`; `stream` and `cache` are booleanized with default `True`.
Each `Option` input models presence of that key in `**options`. -/
def validateOptions (availableModels : List String) (defaultModel : String)
    (model : Option String) (temperature : Option ℚ) (topP : Option ℚ)
    (maxTokens : Option Int) (stream : Option PyVal) (cacheOpt : Option PyVal)
    (functions : Option PyVal) : ValidatedOptions :=
  let m0 := model.getD defaultModel
  let m := if availableModels.contains m0 then m0 else defaultModel
  let t0 := temperature.getD 0
  let t := if 0 ≤ t0 ∧ t0 ≤ 2 then t0 else max 0 (min 2 t0)
  let p0 := topP.getD 1
  let p := if 0 ≤ p0 ∧ p0 ≤ 1 then p0 else max 0 (min 1 p0)
  let mt := match maxTokens with
    | some v => if v ≤ 0 then none else some v
    | none => none
  { model := m
    temperature := t
    top_p := p
    max_tokens := mt
    stream := (stream.map truthyVal).getD true
    cache := (cacheOpt.map truthyVal).getD true
    functions := validatedFunctions functions }

/-! # Theorems -/

/-! ## Retry executor lemmas -/

theorem retryFrom_ok (stream : Bool) (d : ℚ) (op : Nat → ApiOutcome)
    (attempt remaining : Nat) (v : ApiValue)
    (h : classifyAttempt stream (op attempt) = .ok v) :
    retryFrom stream d op attempt remaining = ⟨.ok v, 1, []⟩ := by
  rw [retryFrom, h]

theorem retryFrom_err_zero (stream : Bool) (d : ℚ) (op : Nat → ApiOutcome)
    (attempt : Nat) (m : String)
    (h : classifyAttempt stream (op attempt) = .error m) :
    retryFrom stream d op attempt 0 = ⟨createErrorResponse m, 1, []⟩ := by
  rw [retryFrom, h]

theorem retryFrom_err_succ (stream : Bool) (d : ℚ) (op : Nat → ApiOutcome)
    (attempt r : Nat) (m : String)
    (h : classifyAttempt stream (op attempt) = .error m) :
    retryFrom stream d op attempt (r + 1) =
      ⟨(retryFrom stream d op (attempt + 1) r).result,
       (retryFrom stream d op (attempt + 1) r).calls + 1,
       d * 2 ^ attempt :: (retryFrom stream d op (attempt + 1) r).sleeps⟩ := by
  rw [retryFrom, h]

theorem retryFrom_all_fail (stream : Bool) (d : ℚ) (op : Nat → ApiOutcome)
    (msg : Nat → String) :
    ∀ remaining attempt,
      (∀ i, attempt ≤ i → i ≤ attempt + remaining →
        classifyAttempt stream (op i) = .error (msg i)) →
      retryFrom stream d op attempt remaining =
        ⟨createErrorResponse (msg (attempt + remaining)), remaining + 1,
         (List.range' attempt remaining).map (fun i => d * 2 ^ i)⟩
  | 0, attempt, h => by
    rw [retryFrom_err_zero stream d op attempt (msg attempt)
      (h attempt le_rfl (by omega))]
    simp
  | r + 1, attempt, h => by
    rw [retryFrom_err_succ stream d op attempt r (msg attempt)
      (h attempt le_rfl (by omega)),
      retryFrom_all_fail stream d op msg r (attempt + 1)
        (fun i h1 h2 => h i (by omega) (by omega))]
    simp [List.range'_succ]
    congr 2
    omega

theorem retryFrom_succeeds (stream : Bool) (d : ℚ) (op : Nat → ApiOutcome)
    (msg : Nat → String) (v : ApiValue) :
    ∀ k remaining attempt, k ≤ remaining →
      (∀ i, i < k → classifyAttempt stream (op (attempt + i)) = .error (msg (attempt + i))) →
      classifyAttempt stream (op (attempt + k)) = .ok v →
      retryFrom stream d op attempt remaining =
        ⟨.ok v, k + 1, (List.range' attempt k).map (fun i => d * 2 ^ i)⟩
  | 0, remaining, attempt, _, _, hsucc => by
    rw [retryFrom_ok stream d op attempt remaining v (by simpa using hsucc)]
    simp
  | k + 1, remaining, attempt, hk, hfail, hsucc => by
    obtain ⟨r, rfl⟩ : ∃ r, remaining = r + 1 := ⟨remaining - 1, by omega⟩
    rw [retryFrom_err_succ stream d op attempt r (msg attempt)
        (by simpa using hfail 0 (by omega)),
      retryFrom_succeeds stream d op msg v k r (attempt + 1) (by omega)
        (fun i hi => by
          have := hfail (i + 1) (by omega)
          have e : attempt + (i + 1) = attempt + 1 + i := by omega
          rwa [e] at this)
        (by
          have e : attempt + (k + 1) = attempt + 1 + k := by omega
          rwa [e] at hsucc)]
    simp [List.range'_succ]

theorem retryFrom_calls_pos (stream : Bool) (d : ℚ) (op : Nat → ApiOutcome)
    (attempt remaining : Nat) :
    1 ≤ (retryFrom stream d op attempt remaining).calls := by
  rcases h : classifyAttempt stream (op attempt) with m | v
  · rcases remaining with _ | r
    · rw [retryFrom_err_zero stream d op attempt _ h]
    · rw [retryFrom_err_succ stream d op attempt r _ h]
      simp
  · rw [retryFrom_ok stream d op attempt remaining _ h]

/-! ## Claim C3 — retry exhaustion -/

/-- C3: a wrapped operation that fails (raises or returns a structurally
invalid result) on every attempt makes the retry executor perform exactly
`max_retries + 1` invocations and return the typed `MockResponse` failure
sentinel carrying the last error's message; no exception propagates (the
embedded executor is a total function into `RetryTrace`, mirroring the
source's catch-all `except`). The backoff sleeps are
`retry_delay * 2^0 … 2^(maxRetries-1)`. -/
theorem claim_retry_exhaustion (maxRetries : Nat) (stream : Bool) (d : ℚ)
    (op : Nat → ApiOutcome) (msg : Nat → String)
    (hfail : ∀ i, i ≤ maxRetries → classifyAttempt stream (op i) = .error (msg i)) :
    retryWithBackoff maxRetries stream d op =
      ⟨.mockError ("❌ Error: " ++ msg maxRetries), maxRetries + 1,
       (List.range maxRetries).map (fun i => d * 2 ^ i)⟩ := by
  rw [retryWithBackoff,
    retryFrom_all_fail stream d op msg maxRetries 0 (fun i _ h2 => hfail i (by omega))]
  simp [createErrorResponse, List.range_eq_range']

/-- Witness for C3 at `max_retries = 2` and an operation raising `"0"`,
`"1"`, `"2"`: three invocations, failure sentinel `"❌ Error: 2"`, sleeps
`[1, 2]`. -/
theorem claim_retry_exhaustion_witness :
    retryWithBackoff 2 false 1 (fun i => .raised (toString i)) =
      ⟨.mockError "❌ Error: 2", 3, [1, 2]⟩ := by
  rw [claim_retry_exhaustion 2 false 1 (fun i => .raised (toString i))
    (fun i => toString i) (fun _ _ => rfl)]
  norm_num [List.range_succ]
  rfl

/-! ## Claim C6 — retry success after k failures -/

/-- C6: an operation failing exactly `k` times (`k < max_retries`) and then
succeeding yields the successful value after exactly `k + 1` invocations,
with backoff sleeps `base_delay * 2^0, …, base_delay * 2^(k-1)`. -/
theorem claim_retry_success_after_failures (maxRetries k : Nat) (stream : Bool)
    (d : ℚ) (op : Nat → ApiOutcome) (msg : Nat → String) (v : ApiValue)
    (hk : k < maxRetries)
    (hfail : ∀ i, i < k → classifyAttempt stream (op i) = .error (msg i))
    (hsucc : classifyAttempt stream (op k) = .ok v) :
    retryWithBackoff maxRetries stream d op =
      ⟨.ok v, k + 1, (List.range k).map (fun i => d * 2 ^ i)⟩ := by
  rw [retryWithBackoff,
    retryFrom_succeeds stream d op msg v k maxRetries 0 (le_of_lt hk)
      (fun i hi => by simpa using hfail i hi) (by simpa using hsucc)]
  simp [List.range_eq_range']

/-- Witness for C6 with `k = 2`, `max_retries = 3`: the operation raises
twice then returns a valid response; the result is the success value after
3 invocations with sleeps `[1, 2]`. -/
theorem claim_retry_success_after_failures_witness :
    retryWithBackoff 3 false 1
        (fun i => if i < 2 then .raised (toString i) else .returned (.vResp (some ["ok"]))) =
      ⟨.ok (.vResp (some ["ok"])), 3, [1, 2]⟩ := by
  rw [claim_retry_success_after_failures 3 2 false 1
    (fun i => if i < 2 then .raised (toString i) else .returned (.vResp (some ["ok"])))
    (fun i => toString i) (.vResp (some ["ok"])) (by omega)
    (fun i hi => by interval_cases i <;> rfl) rfl]
  norm_num [List.range_succ]

/-! ## Claim C2 — no rejection of empty message sequences -/

/-- C2 counterexample: the claim says a request with an empty message
sequence is rejected with a `ValidationError` before any provider call is
attempted. On the code, `complete` contains no validation of `messages` at
all: with empty messages and a well-behaved provider, the provider
callable is invoked exactly once — not zero times. -/
theorem claim_empty_messages_counterexample :
    (clientComplete "gpt-3.5-turbo" 60 3 1 [] none 0 1 none none
      (fun _ _ => .returned (.vResp (some ["hello"])))).calls = 1 ∧
    (clientComplete "gpt-3.5-turbo" 60 3 1 [] none 0 1 none none
      (fun _ _ => .returned (.vResp (some ["hello"])))).calls ≠ 0 := by
  decide

/-- C2 amended: the completion client never rejects a request for having an
empty message sequence — there is no `ValidationError` anywhere in the
client; every non-streaming request, the empty message sequence included,
reaches the provider call through the retry executor, which invokes the
wrapped provider callable at least once. -/
theorem claim_empty_messages_not_rejected (defaultModel : String)
    (timeout maxRetries : Nat) (d : ℚ) (messages : List Message)
    (model : Option String) (t p : ℚ) (mt : Option Int)
    (fns : Option (List String)) (op : CompletionKwargs → Nat → ApiOutcome) :
    1 ≤ (clientComplete defaultModel timeout maxRetries d messages model
      t p mt fns op).calls := by
  unfold clientComplete retryWithBackoff
  exact retryFrom_calls_pos _ _ _ _ _

/-! ## Claim C8 — streaming never propagates exceptions -/

/-- C8: the fragment sequence a streaming completion exposes never raises:
the embedded generator is a total function into a fragment list; a
transport-level exception after the yielded chunks contributes exactly one
final error-marked fragment after which the sequence ends, and a malformed
chunk (missing `choices` attribute or empty `choices` list) contributes no
fragment at all. -/
theorem claim_streaming_error_fragment (chunks : List StreamChunk) (m : String)
    (c : StreamChunk) (hmal : c.choices = none ∨ c.choices = some []) :
    streamCompletion (.ok (.vStream chunks (some m))) =
      streamFragments chunks none ++ ["❌ Streaming Error: " ++ m] ∧
    chunkFragments c = [] := by
  constructor
  · simp [streamCompletion, streamFragments]
  · rcases hmal with h | h <;> simp [chunkFragments, h]

/-- Witness for C8: one well-formed content chunk followed by a transport
error `"boom"`, plus a chunk with no `choices` attribute. -/
theorem claim_streaming_error_fragment_witness :
    streamCompletion (.ok (.vStream [⟨some [⟨⟨some "hi", none⟩⟩]⟩] (some "boom"))) =
      streamFragments [⟨some [⟨⟨some "hi", none⟩⟩]⟩] none ++
        ["❌ Streaming Error: boom"] ∧
    chunkFragments ⟨none⟩ = [] :=
  claim_streaming_error_fragment _ "boom" ⟨none⟩ (Or.inl rfl)

/-! ## Claim C9 — out-of-range parameters are clamped, not rejected -/

/-- C9: `validate_options` clamps an out-of-range `temperature` to the
nearest bound of `[0, 2]`, an out-of-range `top_p` to the nearest bound of
`[0, 1]`, and replaces a negative `max_tokens` by `None`; the validated
values are what the handlers pass on to the provider call. -/
theorem claim_validate_options_clamps (availableModels : List String)
    (defaultModel : String) (model : Option String)
    (stream cacheOpt functions : Option PyVal) (t p : ℚ) (mtok : Int) :
    ((t < 0 → (validateOptions availableModels defaultModel model (some t)
        (some p) (some mtok) stream cacheOpt functions).temperature = 0) ∧
     (2 < t → (validateOptions availableModels defaultModel model (some t)
        (some p) (some mtok) stream cacheOpt functions).temperature = 2) ∧
     (p < 0 → (validateOptions availableModels defaultModel model (some t)
        (some p) (some mtok) stream cacheOpt functions).top_p = 0) ∧
     (1 < p → (validateOptions availableModels defaultModel model (some t)
        (some p) (some mtok) stream cacheOpt functions).top_p = 1) ∧
     (mtok < 0 → (validateOptions availableModels defaultModel model (some t)
        (some p) (some mtok) stream cacheOpt functions).max_tokens = none)) := by
  refine ⟨fun h => ?_, fun h => ?_, fun h => ?_, fun h => ?_, fun h => ?_⟩
  · have h1 : ¬(0 ≤ t ∧ t ≤ 2) := fun hc => absurd hc.1 (not_le.mpr h)
    simp [validateOptions, h1]
    exact Or.inr h.le
  · have h1 : ¬(0 ≤ t ∧ t ≤ 2) := fun hc => absurd hc.2 (not_le.mpr h)
    simp [validateOptions, h1]
    rw [inf_eq_left.mpr h.le]
    exact sup_eq_right.mpr (by norm_num)
  · have h1 : ¬(0 ≤ p ∧ p ≤ 1) := fun hc => absurd hc.1 (not_le.mpr h)
    simp [validateOptions, h1]
    exact Or.inr h.le
  · have h1 : ¬(0 ≤ p ∧ p ≤ 1) := fun hc => absurd hc.2 (not_le.mpr h)
    simp [validateOptions, h1]
    rw [inf_eq_left.mpr h.le]
    exact sup_eq_right.mpr (by norm_num)
  · simp [validateOptions, (by omega : mtok ≤ 0)]

/-- Witness for C9 at `temperature = -1`, `top_p = 2`, `max_tokens = -5`. -/
theorem claim_validate_options_clamps_witness :
    (validateOptions [] "gpt-3.5-turbo" none (some (-1)) (some 2) (some (-5))
      none none none).temperature = 0 ∧
    (validateOptions [] "gpt-3.5-turbo" none (some (-1)) (some 2) (some (-5))
      none none none).top_p = 1 ∧
    (validateOptions [] "gpt-3.5-turbo" none (some (-1)) (some 2) (some (-5))
      none none none).max_tokens = none :=
  ⟨(claim_validate_options_clamps [] "gpt-3.5-turbo" none none none none
      (-1) 2 (-5)).1 (by norm_num),
   (claim_validate_options_clamps [] "gpt-3.5-turbo" none none none none
      (-1) 2 (-5)).2.2.2.1 (by norm_num),
   (claim_validate_options_clamps [] "gpt-3.5-turbo" none none none none
      (-1) 2 (-5)).2.2.2.2 (by norm_num)⟩

/-! ## Claim C10 — cache key is independent of the receiver instance -/

/-- C10: the cached entry point's key generation strips the bound receiver
(the first positional argument, detected by `hasattr(args[0], '__dict__')`)
before hashing, so two distinct handler instances calling the cached
method with identical remaining positional and keyword arguments produce
the same cache key — and therefore address the same cache entry. -/
theorem claim_receiver_independent_key (cls₁ cls₂ : String) (a₁ a₂ : Nat)
    (rest : List PyVal) (kwargs : List (String × PyVal)) :
    wrapperCacheKey (.pObj cls₁ a₁ :: rest) kwargs =
      wrapperCacheKey (.pObj cls₂ a₂ :: rest) kwargs := by
  simp [wrapperCacheKey, wrapperCacheArgs, hasDunderDict]

/-! ## Sorting lemmas for `sorted(kwargs.items())` -/

theorem insByKey_perm {α : Type} (p : String × α) :
    ∀ l : List (String × α), (insByKey p l).Perm (p :: l)
  | [] => List.Perm.refl _
  | q :: rest => by
    rw [insByKey]
    by_cases hc : p.1 ≤ q.1
    · rw [if_pos hc]
    · rw [if_neg hc]
      exact ((insByKey_perm p rest).cons q).trans (List.Perm.swap p q rest)

theorem sortPairsByKey_perm {α : Type} :
    ∀ l : List (String × α), (sortPairsByKey l).Perm l
  | [] => List.Perm.refl _
  | p :: rest => by
    show (insByKey p (sortPairsByKey rest)).Perm (p :: rest)
    exact (insByKey_perm p _).trans ((sortPairsByKey_perm rest).cons p)

theorem insByKey_sorted {α : Type} (p : String × α) :
    ∀ l : List (String × α), l.Pairwise (fun a b => a.1 ≤ b.1) →
      (insByKey p l).Pairwise (fun a b => a.1 ≤ b.1)
  | [], _ => List.pairwise_singleton _ _
  | q :: rest, h => by
    rw [List.pairwise_cons] at h
    rw [insByKey]
    by_cases hc : p.1 ≤ q.1
    · rw [if_pos hc]
      exact List.Pairwise.cons
        (fun x hx => by
          rcases List.mem_cons.mp hx with rfl | hx
          · exact hc
          · exact le_trans hc (h.1 x hx))
        (List.Pairwise.cons h.1 h.2)
    · rw [if_neg hc]
      exact List.Pairwise.cons
        (fun x hx => by
          rcases List.mem_cons.mp ((insByKey_perm p rest).mem_iff.mp hx) with rfl | hx
          · exact le_of_not_le hc
          · exact h.1 x hx)
        (insByKey_sorted p rest h.2)

theorem sortPairsByKey_sorted {α : Type} :
    ∀ l : List (String × α),
      (sortPairsByKey l).Pairwise (fun a b => a.1 ≤ b.1)
  | [] => List.Pairwise.nil
  | p :: rest => insByKey_sorted p _ (sortPairsByKey_sorted rest)

/-- Two orderings of the same keyword-argument set (distinct names) sort to
the same canonical list. -/
theorem sortPairsByKey_eq_of_perm {α : Type} (l₁ l₂ : List (String × α))
    (hperm : l₁.Perm l₂) (hnd : (l₁.map Prod.fst).Nodup) :
    sortPairsByKey l₁ = sortPairsByKey l₂ := by
  have p1 := sortPairsByKey_perm (α := α) l₁
  have p2 := sortPairsByKey_perm (α := α) l₂
  have hp : (sortPairsByKey l₁).Perm (sortPairsByKey l₂) :=
    p1.trans (hperm.trans p2.symm)
  have nd1 : ((sortPairsByKey l₁).map Prod.fst).Nodup :=
    ((p1.map Prod.fst).nodup_iff).mpr hnd
  have nd2 : ((sortPairsByKey l₂).map Prod.fst).Nodup :=
    ((hp.map Prod.fst).nodup_iff).mp nd1
  have strict : ∀ (l : List (String × α)),
      l.Pairwise (fun a b => a.1 ≤ b.1) → (l.map Prod.fst).Nodup →
      l.Pairwise (fun a b => a.1 < b.1) := by
    intro l hle hnd
    have hne : l.Pairwise (fun a b => a.1 ≠ b.1) := List.pairwise_map.mp hnd
    exact (hle.and hne).imp (fun hab => lt_of_le_of_ne hab.1 hab.2)
  have s1 := strict _ (sortPairsByKey_sorted l₁) nd1
  have s2 := strict _ (sortPairsByKey_sorted l₂) nd2
  haveI : IsAntisymm (String × α) (fun a b => a.1 < b.1) :=
    ⟨fun _ _ h1 h2 => absurd h2 (lt_asymm h1)⟩
  exact List.eq_of_perm_of_sorted hp s1 s2

/-! ## Claim C7 — key derivation is insensitive to kwargs ordering -/

/-- C7: for identical positional arguments and the same keyword-argument
set supplied in any two orders (keyword names are distinct by
construction), `_generate_key` produces equal cache keys: the wrapper
serializes `sorted(kwargs.items())`, so both orderings hash the same
canonical string. -/
theorem claim_key_order_insensitive (args : List PyVal)
    (kw₁ kw₂ : List (String × PyVal)) (hperm : kw₁.Perm kw₂)
    (hnd : (kw₁.map Prod.fst).Nodup) :
    generateKey args kw₁ = generateKey args kw₂ := by
  unfold generateKey generateKeyString
  rw [sortPairsByKey_eq_of_perm kw₁ kw₂ hperm hnd]

/-- Witness for C7: the keyword sets `{b: 2, a: None}` supplied in the two
possible orders produce the same key. -/
theorem claim_key_order_insensitive_witness :
    generateKey [] [("b", .pInt 2), ("a", .pNone)] =
      generateKey [] [("a", .pNone), ("b", .pInt 2)] :=
  claim_key_order_insensitive [] _ _
    (List.Perm.swap ("a", PyVal.pNone) ("b", PyVal.pInt 2) []) (by decide)

/-! ## Association-list and eviction lemmas -/

theorem alSet_of_not_mem {α : Type} (k : String) (v : α) :
    ∀ l : List (String × α), k ∉ l.map Prod.fst →
      alSet k v l = l ++ [(k, v)]
  | [], _ => rfl
  | (k', v') :: rest, h => by
    simp only [List.map_cons, List.mem_cons, not_or] at h
    rw [alSet, if_neg (fun he => h.1 he.symm),
      alSet_of_not_mem k v rest h.2]
    rfl

theorem mem_map_fst_alSet {α : Type} (k x : String) (v : α) :
    ∀ l : List (String × α),
      (x ∈ (alSet k v l).map Prod.fst ↔ x = k ∨ x ∈ l.map Prod.fst)
  | [] => by simp [alSet]
  | (k', v') :: rest => by
    rw [alSet]
    by_cases hc : k' = k
    · subst hc
      rw [if_pos rfl]
      simp
    · rw [if_neg hc]
      simp [mem_map_fst_alSet k x v rest]
      tauto

theorem nodup_keys_alSet {α : Type} (k : String) (v : α) :
    ∀ l : List (String × α), (l.map Prod.fst).Nodup →
      ((alSet k v l).map Prod.fst).Nodup
  | [], _ => by simp [alSet]
  | (k', v') :: rest, h => by
    simp only [List.map_cons, List.nodup_cons] at h
    rw [alSet]
    by_cases hc : k' = k
    · subst hc
      rw [if_pos rfl]
      simp only [List.map_cons, List.nodup_cons]
      exact h
    · rw [if_neg hc]
      simp only [List.map_cons, List.nodup_cons]
      refine ⟨fun hm => ?_, nodup_keys_alSet k v rest h.2⟩
      rcases (mem_map_fst_alSet k k' v rest).mp hm with rfl | hm2
      · exact hc rfl
      · exact h.1 hm2

theorem insByTime_perm (p : String × Nat) :
    ∀ l : List (String × Nat), (insByTime p l).Perm (p :: l)
  | [] => List.Perm.refl _
  | q :: rest => by
    rw [insByTime]
    by_cases hc : p.2 ≤ q.2
    · rw [if_pos hc]
    · rw [if_neg hc]
      exact ((insByTime_perm p rest).cons q).trans (List.Perm.swap p q rest)

theorem sortByTime_perm :
    ∀ l : List (String × Nat), (sortByTime l).Perm l
  | [] => List.Perm.refl _
  | p :: rest => by
    show (insByTime p (sortByTime rest)).Perm (p :: rest)
    exact (insByTime_perm p _).trans ((sortByTime_perm rest).cons p)

theorem insByTime_of_le (p : String × Nat) :
    ∀ l : List (String × Nat), (∀ x ∈ l, p.2 ≤ x.2) →
      insByTime p l = p :: l
  | [], _ => rfl
  | q :: rest, h => by
    rw [insByTime, if_pos (h q (List.mem_cons_self q rest))]

theorem sortByTime_of_sorted :
    ∀ l : List (String × Nat), l.Pairwise (fun a b => a.2 ≤ b.2) →
      sortByTime l = l
  | [], _ => rfl
  | p :: rest, h => by
    rw [List.pairwise_cons] at h
    show insByTime p (sortByTime rest) = p :: rest
    rw [sortByTime_of_sorted rest h.2, insByTime_of_le p rest h.1]

theorem contains_eq_true_iff (ks : List String) (a : String) :
    ks.contains a = true ↔ a ∈ ks := List.elem_iff

theorem length_filter_not_mem_keys {α : Type} :
    ∀ (l : List (String × α)) (ks : List String),
      (l.map Prod.fst).Nodup → ks.Nodup →
      (∀ x ∈ ks, x ∈ l.map Prod.fst) →
      (l.filter (fun p => !(ks.contains p.1))).length = l.length - ks.length
  | [], ks, _, _, hsub => by
    have : ks = [] := List.eq_nil_iff_forall_not_mem.mpr (fun x hx => by
      simpa using hsub x hx)
    subst this
    simp
  | p :: rest, ks, hnd, hknd, hsub => by
    simp only [List.map_cons, List.nodup_cons] at hnd
    by_cases hp : p.1 ∈ ks
    · have hk1 : 0 < ks.length := List.length_pos_of_mem hp
      have hcont : (ks.contains p.1) = true := contains_eq_true_iff ks p.1 |>.mpr hp
      rw [List.filter_cons_of_neg (by rw [hcont]; decide)]
      have hcong : rest.filter (fun q => !(ks.contains q.1)) =
          rest.filter (fun q => !((ks.erase p.1).contains q.1)) := by
        apply List.filter_congr
        intro q hq
        have hne : q.1 ≠ p.1 := fun he => hnd.1 (he ▸ List.mem_map_of_mem Prod.fst hq)
        by_cases hqk : q.1 ∈ ks
        · have h1 : q.1 ∈ ks.erase p.1 := (List.mem_erase_of_ne hne).mpr hqk
          rw [show ks.contains q.1 = true from (contains_eq_true_iff _ _).mpr hqk,
            show (ks.erase p.1).contains q.1 = true from (contains_eq_true_iff _ _).mpr h1]
        · have h1 : q.1 ∉ ks.erase p.1 := fun hm => hqk (List.mem_of_mem_erase hm)
          rw [show ks.contains q.1 = false from Bool.eq_false_iff.mpr
              (fun hc => hqk ((contains_eq_true_iff _ _).mp hc)),
            show (ks.erase p.1).contains q.1 = false from Bool.eq_false_iff.mpr
              (fun hc => h1 ((contains_eq_true_iff _ _).mp hc))]
      rw [hcong, length_filter_not_mem_keys rest (ks.erase p.1) hnd.2
        (hknd.erase p.1)
        (fun x hx => by
          have hxk := List.mem_of_mem_erase hx
          have hxne : x ≠ p.1 := (hknd.mem_erase_iff.mp hx).1
          have hx2 := hsub x hxk
          rw [List.map_cons] at hx2
          rcases List.mem_cons.mp hx2 with he | hm
          · exact absurd he hxne
          · exact hm),
        List.length_erase_of_mem hp]
      simp only [List.length_cons]
      omega
    · have hcont : (ks.contains p.1) = false :=
        Bool.eq_false_iff.mpr (fun hc => hp ((contains_eq_true_iff _ _).mp hc))
      rw [List.filter_cons_of_pos (by rw [hcont]; decide)]
      have hsub2 : ∀ x ∈ ks, x ∈ rest.map Prod.fst := fun x hx => by
        have hx2 := hsub x hx
        rw [List.map_cons] at hx2
        rcases List.mem_cons.mp hx2 with he | hm
        · exact absurd (he ▸ hx) hp
        · exact hm
      have hlen : ks.length ≤ (rest.map Prod.fst).length :=
        (hknd.subperm (by intro x hx; exact hsub2 x hx)).length_le
      simp only [List.length_cons]
      rw [length_filter_not_mem_keys rest ks hnd.2 hknd hsub2]
      simp only [List.length_map] at hlen
      omega

theorem cleanup_metadata_le (maxSize : Nat) (st : CacheState)
    (hnd : (st.metadata.map Prod.fst).Nodup) :
    (cleanupOldEntries maxSize st).metadata.length ≤ maxSize := by
  unfold cleanupOldEntries
  by_cases hle : st.metadata.length ≤ maxSize
  · rw [if_pos hle]
    exact hle
  · rw [if_neg hle]
    show (st.metadata.filter _).length ≤ maxSize
    have hperm := sortByTime_perm st.metadata
    have hL : (sortByTime st.metadata).length = st.metadata.length :=
      hperm.length_eq
    have hkperm : ((sortByTime st.metadata).map Prod.fst).Perm
        (st.metadata.map Prod.fst) := hperm.map _
    have hsl : (((sortByTime st.metadata).take
          ((sortByTime st.metadata).length - maxSize)).map Prod.fst).Sublist
        ((sortByTime st.metadata).map Prod.fst) :=
      (List.take_sublist _ _).map _
    have hknd : (((sortByTime st.metadata).take
        ((sortByTime st.metadata).length - maxSize)).map Prod.fst).Nodup :=
      hsl.nodup (hkperm.nodup_iff.mpr hnd)
    have hsub : ∀ x ∈ ((sortByTime st.metadata).take
        ((sortByTime st.metadata).length - maxSize)).map Prod.fst,
        x ∈ st.metadata.map Prod.fst :=
      fun x hx => hkperm.mem_iff.mp (hsl.subset hx)
    rw [length_filter_not_mem_keys st.metadata _ hnd hknd hsub]
    rw [List.length_map, List.length_take]
    omega

/-! ## Claim C5 — the size bound is an invariant of `set` -/

/-- C5: for every well-formed store state (the metadata index is a dict, so
its keys are distinct) with at most `capacity` entries, `set(key, payload)`
leaves at most `capacity` entries in the store: the eviction pass run at
the end of `set` trims the index back to the bound. -/
theorem claim_cache_size_invariant (maxSize : Nat) (key value : String)
    (now : Nat) (st : CacheState)
    (hnd : (st.metadata.map Prod.fst).Nodup)
    (hsize : st.metadata.length ≤ maxSize) :
    statsEntries (cacheSet maxSize key value now st) ≤ maxSize := by
  unfold statsEntries cacheSet
  exact cleanup_metadata_le maxSize _ (nodup_keys_alSet key now st.metadata hnd)

/-- Witness for C5: a store of capacity 1 holding one entry accepts a
second `set` and still holds at most one entry. -/
theorem claim_cache_size_invariant_witness :
    statsEntries (cacheSet 1 "y" "2" 5 ⟨[("x", "1")], [("x", 3)]⟩) ≤ 1 :=
  claim_cache_size_invariant 1 "y" "2" 5 ⟨[("x", "1")], [("x", 3)]⟩
    (by decide) (by decide)

theorem filter_not_contains_singleton {α : Type} (k : String) :
    ∀ l : List (String × α), k ∉ l.map Prod.fst →
      l.filter (fun p => !([k].contains p.1)) = l
  | [], _ => rfl
  | p :: rest, h => by
    simp only [List.map_cons, List.mem_cons, not_or] at h
    have hcont : ([k].contains p.1) = false :=
      Bool.eq_false_iff.mpr (fun hc =>
        h.1 (List.mem_singleton.mp ((contains_eq_true_iff _ _).mp hc)).symm)
    rw [List.filter_cons_of_pos (by rw [hcont]; decide),
      filter_not_contains_singleton k rest h.2]

theorem cacheSet_no_evict (maxSize : Nat) (key value : String) (now : Nat)
    (st : CacheState)
    (hkf : key ∉ st.files.map Prod.fst)
    (hkm : key ∉ st.metadata.map Prod.fst)
    (hlen : st.metadata.length + 1 ≤ maxSize) :
    cacheSet maxSize key value now st =
      ⟨st.files ++ [(key, value)], st.metadata ++ [(key, now)]⟩ := by
  unfold cacheSet cleanupOldEntries
  rw [alSet_of_not_mem _ _ _ hkf, alSet_of_not_mem _ _ _ hkm]
  have hc : (st.metadata ++ [(key, now)]).length ≤ maxSize := by
    simp only [List.length_append, List.length_singleton]
    omega
  rw [if_pos hc]

theorem runSets_fresh (maxSize : Nat) :
    ∀ (es : List (String × String × Nat)) (st : CacheState),
      (es.map (fun e => e.1)).Nodup →
      (∀ e ∈ es, e.1 ∉ st.files.map Prod.fst ∧ e.1 ∉ st.metadata.map Prod.fst) →
      st.metadata.length + es.length ≤ maxSize →
      runSets maxSize es st =
        ⟨st.files ++ es.map (fun e => (e.1, e.2.1)),
         st.metadata ++ es.map (fun e => (e.1, e.2.2))⟩
  | [], st, _, _, _ => by simp [runSets]
  | e :: rest, st, hnd, hfresh, hlen => by
    simp only [List.map_cons, List.nodup_cons] at hnd
    simp only [List.length_cons] at hlen
    have hf := hfresh e (List.mem_cons_self e rest)
    have hstep : cacheSet maxSize e.1 e.2.1 e.2.2 st =
        ⟨st.files ++ [(e.1, e.2.1)], st.metadata ++ [(e.1, e.2.2)]⟩ :=
      cacheSet_no_evict maxSize e.1 e.2.1 e.2.2 st hf.1 hf.2 (by omega)
    have hrun : runSets maxSize (e :: rest) st =
        runSets maxSize rest (cacheSet maxSize e.1 e.2.1 e.2.2 st) := rfl
    rw [hrun, hstep,
      runSets_fresh maxSize rest ⟨st.files ++ [(e.1, e.2.1)], st.metadata ++ [(e.1, e.2.2)]⟩
        hnd.2
        (fun e' he' => by
          have hf' := hfresh e' (List.mem_cons_of_mem e he')
          have hne : e'.1 ≠ e.1 :=
            fun hq => hnd.1 (hq ▸ List.mem_map_of_mem _ he')
          constructor
          · simp only [List.map_append, List.mem_append, not_or]
            exact ⟨hf'.1, by simp [hne]⟩
          · simp only [List.map_append, List.mem_append, not_or]
            exact ⟨hf'.2, by simp [hne]⟩)
        (by
          simp only [List.length_append, List.length_singleton]
          omega)]
    simp

theorem final_set_evicts (N : Nat) (es : List (String × String × Nat))
    (hlen : es.length = N + 1)
    (hkeys : (es.map (fun e => e.1)).Nodup)
    (htimes : (es.map (fun e => e.2.2)).Pairwise (· ≤ ·)) :
    cleanupOldEntries N
        ⟨es.map (fun e => (e.1, e.2.1)), es.map (fun e => (e.1, e.2.2))⟩ =
      ⟨(es.drop 1).map (fun e => (e.1, e.2.1)),
       (es.drop 1).map (fun e => (e.1, e.2.2))⟩ := by
  rcases es with _ | ⟨e0, tl⟩
  · simp at hlen
  simp only [List.map_cons, List.nodup_cons] at hkeys
  simp only [List.length_cons] at hlen
  have hsorted : sortByTime ((e0 :: tl).map (fun e => (e.1, e.2.2))) =
      (e0 :: tl).map (fun e => (e.1, e.2.2)) := by
    apply sortByTime_of_sorted
    rw [List.pairwise_map]
    have := List.pairwise_map.mp htimes
    exact this
  unfold cleanupOldEntries
  have hmlen : (((e0 :: tl).map (fun e => (e.1, e.2.2))).length ≤ N) = False := by
    simp only [List.length_map, List.length_cons]
    simp only [eq_iff_iff, iff_false, not_le]
    omega
  rw [if_neg (by
    simp only [List.length_map, List.length_cons]
    omega)]
  simp only [hsorted]
  have hr : ((e0 :: tl).map (fun e => (e.1, e.2.2))).length - N = 1 := by
    simp only [List.length_map, List.length_cons]
    omega
  rw [hr]
  have htake : (((e0 :: tl).map (fun e => (e.1, e.2.2))).take 1).map Prod.fst =
      [e0.1] := by
    simp
  rw [htake]
  have hffiles : ((e0 :: tl).map (fun e => (e.1, e.2.1))).filter
      (fun p => !([e0.1].contains p.1)) = tl.map (fun e => (e.1, e.2.1)) := by
    rw [List.map_cons, List.filter_cons_of_neg (by
      rw [show ([e0.1].contains e0.1) = true from
        (contains_eq_true_iff _ _).mpr (List.mem_singleton.mpr rfl)]
      decide)]
    apply filter_not_contains_singleton
    rw [List.map_map]
    exact hkeys.1
  have hfmeta : ((e0 :: tl).map (fun e => (e.1, e.2.2))).filter
      (fun p => !([e0.1].contains p.1)) = tl.map (fun e => (e.1, e.2.2)) := by
    rw [List.map_cons, List.filter_cons_of_neg (by
      rw [show ([e0.1].contains e0.1) = true from
        (contains_eq_true_iff _ _).mpr (List.mem_singleton.mpr rfl)]
      decide)]
    apply filter_not_contains_singleton
    rw [List.map_map]
    exact hkeys.1
  rw [hffiles, hfmeta]
  simp

/-! ## Claim C4 — LRU eviction -/

/-- C4: eviction is least-recently-used. Inserting `N + 1` distinct keys
with strictly increasing access times into an empty store of capacity `N`
leaves exactly the `N` most-recently-accessed keys (all but the first),
and `stats()` reports `N` entries. In particular the concrete scenario
with capacity 2 — `set("a","1")`, `set("b","2")`, `get("a")` (refreshing
`"a"`), `set("c","3")` — leaves exactly `{"a": "1", "c": "3"}` with `"b"`
evicted. -/
theorem claim_lru_eviction (N : Nat) (es : List (String × String × Nat))
    (hlen : es.length = N + 1)
    (hkeys : (es.map (fun e => e.1)).Nodup)
    (htimes : (es.map (fun e => e.2.2)).Pairwise (· < ·)) :
    (runSets N es CacheState.empty).files =
      (es.drop 1).map (fun e => (e.1, e.2.1)) ∧
    (runSets N es CacheState.empty).metadata =
      (es.drop 1).map (fun e => (e.1, e.2.2)) ∧
    statsEntries (runSets N es CacheState.empty) = N ∧
    ((cacheGet "a" 3 (cacheSet 2 "b" "2" 2 (cacheSet 2 "a" "1" 1
        CacheState.empty))).1 = some "1" ∧
     cacheSet 2 "c" "3" 4 (cacheGet "a" 3 (cacheSet 2 "b" "2" 2
        (cacheSet 2 "a" "1" 1 CacheState.empty))).2 =
       ⟨[("a", "1"), ("c", "3")], [("a", 3), ("c", 4)]⟩) := by
  have hne : es ≠ [] := List.ne_nil_of_length_pos (by omega)
  have hsplit : es.dropLast ++ [es.getLast hne] = es :=
    List.dropLast_append_getLast hne
  have hAlen : es.dropLast.length = N := by
    rw [List.length_dropLast, hlen]
    omega
  have hAkeys : (es.dropLast.map (fun e => e.1)).Nodup :=
    ((List.dropLast_sublist es).map _).nodup hkeys
  have hpre := runSets_fresh N es.dropLast CacheState.empty hAkeys
    (fun e _ => ⟨by simp [CacheState.empty], by simp [CacheState.empty]⟩)
    (by simp [CacheState.empty, hAlen])
  have hfold : runSets N es CacheState.empty =
      cacheSet N (es.getLast hne).1 (es.getLast hne).2.1 (es.getLast hne).2.2
        (runSets N es.dropLast CacheState.empty) := by
    conv_lhs => rw [← hsplit]
    simp [runSets, List.foldl_append]
  have hLkeys : (es.getLast hne).1 ∉ es.dropLast.map (fun e => e.1) := by
    have happ : (es.dropLast.map (fun e => e.1)) ++ [(es.getLast hne).1] =
        es.map (fun e => e.1) := by
      conv_rhs => rw [← hsplit]
      rw [List.map_append]
      rfl
    have h2 : ((es.dropLast.map (fun e => e.1)) ++ [(es.getLast hne).1]).Nodup := by
      rw [happ]
      exact hkeys
    have h3 := (List.nodup_append.mp h2).2.2
    intro hm
    exact h3 hm (List.mem_singleton.mpr rfl)
  have hfiles2 : alSet (es.getLast hne).1 (es.getLast hne).2.1
      (es.dropLast.map (fun e => (e.1, e.2.1))) =
      es.map (fun e => (e.1, e.2.1)) := by
    rw [alSet_of_not_mem _ _ _ (by rw [List.map_map]; exact hLkeys)]
    conv_rhs => rw [← hsplit]
    rw [List.map_append]
    rfl
  have hmeta2 : alSet (es.getLast hne).1 (es.getLast hne).2.2
      (es.dropLast.map (fun e => (e.1, e.2.2))) =
      es.map (fun e => (e.1, e.2.2)) := by
    rw [alSet_of_not_mem _ _ _ (by rw [List.map_map]; exact hLkeys)]
    conv_rhs => rw [← hsplit]
    rw [List.map_append]
    rfl
  have hcs : cacheSet N (es.getLast hne).1 (es.getLast hne).2.1
      (es.getLast hne).2.2
      ⟨es.dropLast.map (fun e => (e.1, e.2.1)),
       es.dropLast.map (fun e => (e.1, e.2.2))⟩ =
      cleanupOldEntries N
        ⟨es.map (fun e => (e.1, e.2.1)), es.map (fun e => (e.1, e.2.2))⟩ := by
    unfold cacheSet
    rw [show (⟨es.dropLast.map (fun e => (e.1, e.2.1)),
        es.dropLast.map (fun e => (e.1, e.2.2))⟩ : CacheState).files =
        es.dropLast.map (fun e => (e.1, e.2.1)) from rfl,
      show (⟨es.dropLast.map (fun e => (e.1, e.2.1)),
        es.dropLast.map (fun e => (e.1, e.2.2))⟩ : CacheState).metadata =
        es.dropLast.map (fun e => (e.1, e.2.2)) from rfl,
      hfiles2, hmeta2]
  have hempty : runSets N es.dropLast CacheState.empty =
      ⟨es.dropLast.map (fun e => (e.1, e.2.1)),
       es.dropLast.map (fun e => (e.1, e.2.2))⟩ := by
    rw [hpre]
    show (⟨[] ++ _, [] ++ _⟩ : CacheState) = _
    rw [List.nil_append, List.nil_append]
  rw [hfold, hempty, hcs,
    final_set_evicts N es hlen hkeys (htimes.imp (fun h => le_of_lt h))]
  refine ⟨rfl, rfl, ?_, by decide⟩
  show ((es.drop 1).map (fun e => (e.1, e.2.2))).length = N
  rw [List.length_map, List.length_drop, hlen]
  omega

/-- Witness for C4 at capacity 2 with the three inserts
`("a","1")@1, ("b","2")@2, ("c","3")@3`: `"a"` is evicted, the two
most-recent keys remain, and `stats` reports 2 entries. -/
theorem claim_lru_eviction_witness :
    (runSets 2 [("a", "1", 1), ("b", "2", 2), ("c", "3", 3)]
      CacheState.empty).files = [("b", "2"), ("c", "3")] ∧
    (runSets 2 [("a", "1", 1), ("b", "2", 2), ("c", "3", 3)]
      CacheState.empty).metadata = [("b", 2), ("c", 3)] ∧
    statsEntries (runSets 2 [("a", "1", 1), ("b", "2", 2), ("c", "3", 3)]
      CacheState.empty) = 2 := by
  obtain ⟨h1, h2, h3, -⟩ := claim_lru_eviction 2
    [("a", "1", 1), ("b", "2", 2), ("c", "3", 3)] rfl (by decide) (by decide)
  exact ⟨h1.trans (by decide), h2.trans (by decide), h3⟩

/-! ## Claim C1 — Failure outcomes and the cache (refuted) -/

/-- C1 counterexample: the claim says a `Failure` outcome never mutates the
cache. On the code, the wrapper caches the result of the wrapped call
unconditionally: `json.dumps(result, default=str)` succeeds even on the
`MockResponse` failure sentinel (rendering it as its `repr` string), so
`cache.set` runs. Starting from an empty store with caching enabled, no
tools and no streaming, a `Failure` outcome leaves the store changed, with
one entry written. -/
theorem claim_errors_not_cached_counterexample :
    (cacheResponseWrapper true 100 (fun _ => none) [PyVal.pObj "ChatHandler" 0] []
      (createErrorResponse "boom") 5 6 CacheState.empty).cache ≠
        CacheState.empty ∧
    statsEntries (cacheResponseWrapper true 100 (fun _ => none)
      [PyVal.pObj "ChatHandler" 0] []
      (createErrorResponse "boom") 5 6 CacheState.empty).cache = 1 := by
  decide

/-- C1 amended: for a non-streaming, tool-free request handled with caching
enabled, on a cache miss the wrapper executes the wrapped call and then
writes the serialized result to the store for every outcome — `Failure`
outcomes included: the error sentinel is serialized via `default=str` and
cached exactly like a success, adding a cache file and a metadata entry. -/
theorem claim_failure_outcomes_are_cached (maxSize : Nat)
    (loads : String → Option PyVal) (args : List PyVal)
    (kwargs : List (String × PyVal)) (funcResult : RetryResult)
    (tGet tSet : Nat) (st : CacheState)
    (hfn : truthyOpt (alGet "functions" kwargs) = false)
    (htl : truthyOpt (alGet "tools" kwargs) = false)
    (hst : truthyOpt (alGet "stream" kwargs) = false)
    (hmiss : alGet (wrapperCacheKey args kwargs) st.files = none) :
    cacheResponseWrapper true maxSize loads args kwargs funcResult tGet tSet st =
      ⟨.direct funcResult,
       cacheSet maxSize (wrapperCacheKey args kwargs)
         (serializeFuncResult funcResult) tSet st, true⟩ := by
  simp only [cacheResponseWrapper, cacheGet, hfn, htl, hst, hmiss,
    Bool.not_true, Bool.or_self, if_false]
  simp

/-- Witness for C1's amended statement: a concrete miss with a `Failure`
sentinel is written to the store. -/
theorem claim_failure_outcomes_are_cached_witness :
    cacheResponseWrapper true 100 (fun _ => none) [PyVal.pObj "ChatHandler" 0] []
        (createErrorResponse "boom") 5 6 CacheState.empty =
      ⟨.direct (createErrorResponse "boom"),
       cacheSet 100 (wrapperCacheKey [PyVal.pObj "ChatHandler" 0] [])
         (serializeFuncResult (createErrorResponse "boom")) 6 CacheState.empty,
       true⟩ :=
  claim_failure_outcomes_are_cached 100 (fun _ => none)
    [PyVal.pObj "ChatHandler" 0] []
    (createErrorResponse "boom") 5 6 CacheState.empty rfl rfl rfl rfl

end DeepShell
